import Mathlib

/- Verification of the AccountManager subsystem (irc/accounts.go).
   Go strings are Lean Strings; the buntdb store is an association list from
   keys to entries; clients (sessions) are identified by Nat ids, with
   Option Nat standing for a possibly-nil client pointer. -/

namespace Oragono

/-- AccountCredentials stores the various methods for verifying accounts
(irc/accounts.go).  Go byte slices are lists of byte values. -/
structure AccountCredentials where
  PassphraseSalt : List Nat
  PassphraseHash : List Nat
  Certificate    : String
deriving DecidableEq

/-- Store values.  The source stores strings; a credentials blob is the JSON
text json.Marshal produces from an AccountCredentials value, which this
embedding keeps structurally under the constructor creds.  The constructor
str models every other string, i.e. one on which json.Unmarshal into
AccountCredentials fails. -/
inductive StoreValue where
  | str (s : String)
  | creds (c : AccountCredentials)
deriving DecidableEq

/-- String form of a stored value, used where the source reads a stored
value back as a plain string. -/
def StoreValue.toStr : StoreValue → String
  | .str s => s
  | .creds _ => "{json}"

/-- Models json.Unmarshal of a stored blob into AccountCredentials: it
succeeds exactly on blobs produced by json.Marshal. -/
def unmarshalCreds : StoreValue → Option AccountCredentials
  | .creds c => some c
  | .str _ => none

/-- Key schema of the account store: the constant templates
keyAccountExists .. keyCertToAccount of irc/accounts.go, each applied to a
folded account name (or a certificate fingerprint). -/
inductive Key where
  | accountExists (cf : String)
  | accountVerified (cf : String)
  | accountCallback (cf : String)
  | accountVerificationCode (cf : String)
  | accountName (cf : String)
  | accountRegTime (cf : String)
  | accountCredentials (cf : String)
  | accountAdditionalNicks (cf : String)
  | certToAccount (fp : String)
deriving DecidableEq

/-- Whether a key belongs to the fingerprint-indexed cert family rather
than to the name-keyed account families. -/
def Key.isCert : Key → Bool
  | .certToAccount _ => true
  | _ => false

/-- Entry of the store: a value plus whether the key carries a TTL
(buntdb.SetOptions with Expires set; ttl = false models nil options). -/
structure Entry where
  val : StoreValue
  ttl : Bool
deriving DecidableEq

/-- Association-list lookup (first match wins). -/
def alistGet {α β : Type} [DecidableEq α] : List (α × β) → α → Option β
  | [], _ => none
  | (k2, v) :: t, k => if k = k2 then some v else alistGet t k

/-- Association-list insert or replace. -/
def alistSet {α β : Type} [DecidableEq α] : List (α × β) → α → β → List (α × β)
  | [], k, v => [(k, v)]
  | (k2, w) :: t, k, v => if k = k2 then (k, v) :: t else (k2, w) :: alistSet t k v

/-- Association-list delete. -/
def alistDel {α β : Type} [DecidableEq α] : List (α × β) → α → List (α × β)
  | [], _ => []
  | (k2, w) :: t, k => if k = k2 then alistDel t k else (k2, w) :: alistDel t k

/-- Persistent store: association list from keys to entries. -/
abbrev Store := List (Key × Entry)

/-- Models tx.Get (nil error exactly when the key is present). -/
def storeGet (s : Store) (k : Key) : Option Entry := alistGet s k

/-- Models tx.Set with nil or TTL-bearing options. -/
def storeSet (s : Store) (k : Key) (v : StoreValue) (ttl : Bool) : Store :=
  alistSet s k ⟨v, ttl⟩

/-- Models tx.Delete. -/
def storeDel (s : Store) (k : Key) : Store := alistDel s k

/-- Error kinds of the account subsystem (the errAccount* values used by
irc/accounts.go; distinct errors.New values become distinct constructors). -/
inductive Err where
  | accountCreation
  | accountAlreadyRegistered
  | certfpAlreadyExists
  | callbackFailed
  | accountDoesNotExist
  | accountVerificationFailed
  | accountAlreadyVerified
  | accountVerificationInvalidCode
  | accountUnverified
  | accountInvalidCredentials
deriving DecidableEq

/-- Modelled from the spec: CasefoldName (component C1, defined outside the
given sources) canonicalizes a name and may fail; the spec requires it to be
idempotent and to reject the empty string and the single wildcard character.
The canonical form itself is opaque to every claim, so the model folds valid
names to themselves. -/
def CasefoldName (name : String) : Option String :=
  if name = "" ∨ name = "*" then none else some name

/-- Concatenation with "," separators, as strings.Join does on the
character-list representation of Go strings. -/
def joinComma : List (List Char) → List Char
  | [] => []
  | [x] => x
  | x :: xs => x ++ ',' :: joinComma xs

/-- Splitting at every ",", as strings.Split does on the character-list
representation of Go strings (the empty input yields one empty field). -/
def splitComma : List Char → List (List Char)
  | [] => [[]]
  | c :: cs =>
    if c = ',' then [] :: splitComma cs
    else
      match splitComma cs with
      | r :: rs => (c :: r) :: rs
      | [] => [[c]]

/-- Models marshalReservedNicks: strings.Join(nicks, ","). -/
def marshalReservedNicks (nicks : List String) : String :=
  String.mk (joinComma (nicks.map String.data))

/-- Models unmarshalReservedNicks: the empty string gives the empty list,
otherwise strings.Split on ",". -/
def unmarshalReservedNicks (nicks : String) : List String :=
  if nicks = "" then [] else (splitComma nicks.data).map String.mk

/-- Raw serialized account data as loadRawAccount reads it (missing keys of
an existing account read back as empty strings). -/
structure rawClientAccount where
  Name : StoreValue
  RegisteredAt : StoreValue
  Credentials : StoreValue
  Callback : StoreValue
  Verified : Bool
  AdditionalNicks : StoreValue
deriving DecidableEq

/-- Models loadRawAccount: none is errAccountDoesNotExist (the
account.exists sentinel is missing); otherwise each field is the stored
value, defaulted to the empty string, and Verified reflects the presence of
the account.verified key. -/
def loadRawAccount (s : Store) (cf : String) : Option rawClientAccount :=
  match storeGet s (.accountExists cf) with
  | none => none
  | some _ =>
    some {
      Name := ((storeGet s (.accountName cf)).map Entry.val).getD (.str "")
      RegisteredAt := ((storeGet s (.accountRegTime cf)).map Entry.val).getD (.str "")
      Credentials := ((storeGet s (.accountCredentials cf)).map Entry.val).getD (.str "")
      Callback := ((storeGet s (.accountCallback cf)).map Entry.val).getD (.str "")
      Verified := (storeGet s (.accountVerified cf)).isSome
      AdditionalNicks := ((storeGet s (.accountAdditionalNicks cf)).map Entry.val).getD (.str "") }

/-- State of the AccountManager and its collaborators: the persistent store,
the two in-memory caches, and the account tag of every client session. -/
structure SState where
  store : Store
  nickToAccount : List (String × String)
  accountToClients : List (String × List (Option Nat))
  tags : List (Nat × String)
deriving DecidableEq

/-- Modelled from the spec: Client.Account() reads the session's current
account tag (client.go is outside the given sources). -/
def clientAccount (st : SState) (client : Nat) : String :=
  (alistGet st.tags client).getD ""

/-- Modelled from the spec: Client.SetAccountName stores the tag and reports
whether it changed (client.go is outside the given sources). -/
def SetAccountName (st : SState) (client : Nat) (name : String) : SState × Bool :=
  let old := clientAccount st client
  ({ st with tags := alistSet st.tags client name }, old != name)

/-- Models logoutOfAccount: clear the session's account tag if set (the nick
timer touch and the account-notify broadcast are external side effects).  A
nil client pointer is left untouched; it cannot arise from the operations
modelled here. -/
def logoutOfAccount (st : SState) (client : Option Nat) : SState :=
  match client with
  | none => st
  | some c =>
    if clientAccount st c = "" then st
    else (SetAccountName st c "").1

/-- Models Login: set the session's account tag, then append the session to
its account's client list. -/
def Login (st : SState) (client : Nat) (account : String) : SState :=
  let st1 := (SetAccountName st client account).1
  let cf := clientAccount st1 client
  let newList := ((alistGet st1.accountToClients cf).getD []) ++ [some client]
  { st1 with accountToClients := alistSet st1.accountToClients cf newList }

/-- Models the remaining-clients loop of Logout: make([]*Client, n-1)
initialized to nil, filled in order with the clients that differ from the
one logging out.  Excess tail slots stay nil; writing past the end (no
element matched) is an index-out-of-range panic, modelled as none. -/
def logoutRemaining (clients : List (Option Nat)) (client : Nat) : Option (List (Option Nat)) :=
  let remaining := clients.filter (fun x => x != some client)
  if clients.length - 1 < remaining.length then none
  else some (remaining ++ List.replicate (clients.length - 1 - remaining.length) none)

/-- Models Logout. -/
def Logout (st : SState) (client : Nat) : Option SState :=
  let cf := clientAccount st client
  if cf = "" then some st
  else
    let st1 := logoutOfAccount st (some client)
    let clients := (alistGet st1.accountToClients cf).getD []
    if clients.length ≤ 1 then
      some { st1 with accountToClients := alistDel st1.accountToClients cf }
    else
      match logoutRemaining clients client with
      | none => none
      | some remaining =>
        some { st1 with accountToClients := alistSet st1.accountToClients cf remaining }

/-- Models NickToAccount: fold the nick, then read the cache (empty string
when the fold fails or no entry exists). -/
def NickToAccount (st : SState) (nick : String) : String :=
  match CasefoldName nick with
  | none => ""
  | some cfnick => (alistGet st.nickToAccount cfnick).getD ""

/-- Models Verify (irc/accounts.go): load the raw account, check the stored
verification code (a stored empty code accepts any input, otherwise the
input must equal the stored code; subtle.ConstantTimeCompare of two byte
strings is 1 exactly when they are equal), then promote every account key to
TTL-less storage, install the self-reservation in the nick cache, and log
the session in under the stored display name. -/
def Verify (st : SState) (client : Nat) (account code : String) : SState × Option Err :=
  match CasefoldName account with
  | none => (st, some .accountVerificationFailed)
  | some cf =>
    match loadRawAccount st.store cf with
    | none => (st, some .accountDoesNotExist)
    | some raw =>
      if raw.Verified then (st, some .accountAlreadyVerified)
      else
        let success := match storeGet st.store (.accountVerificationCode cf) with
          | some e => (e.val.toStr == "") || (code == e.val.toStr)
          | none => false
        if success then
          let s1 := storeSet st.store (.accountVerified cf) (.str "1") false
          let s2 := storeDel s1 (.accountVerificationCode cf)
          let s3 := storeSet s2 (.accountExists cf) (.str "1") false
          let s4 := storeSet s3 (.accountName cf) raw.Name false
          let s5 := storeSet s4 (.accountRegTime cf) raw.RegisteredAt false
          let s6 := storeSet s5 (.accountCallback cf) raw.Callback false
          let s7 := storeSet s6 (.accountCredentials cf) raw.Credentials false
          let creds := (unmarshalCreds raw.Credentials).getD ⟨[], [], ""⟩
          let s8 := if creds.Certificate ≠ "" then storeSet s7 (.certToAccount creds.Certificate) (.str cf) false else s7
          let st1 := { st with store := s8, nickToAccount := alistSet st.nickToAccount cf cf }
          (Login st1 client raw.Name.toStr, none)
        else (st, some .accountVerificationInvalidCode)

/-- Models Unregister's second update transaction: when the remembered
credentials blob decoded and lists a certificate fingerprint whose
cert-index entry still points at this account, delete that entry.  The
two-transaction form is the source's: a failure here must not revive the
account. -/
def unregisterCertCleanup (s : Store) (cf : String) (credsRes : Option AccountCredentials) : Store :=
  match credsRes with
  | some creds =>
    if creds.Certificate ≠ "" then
      match storeGet s (.certToAccount creds.Certificate) with
      | some e2 => if e2.val.toStr = cf then storeDel s (.certToAccount creds.Certificate) else s
      | none => s
    else s
  | none => s

/-- Models Unregister (irc/accounts.go): one transaction reads and deletes
every account-keyed record; a second transaction cleans up the cert-index
entry when the remembered credentials blob decodes and still points here;
then the caches are evicted and every attached session is logged out.  The
result is errAccountDoesNotExist exactly when reading the credentials key or
unmarshalling its value failed. -/
def Unregister (st : SState) (account : String) : SState × Option Err :=
  match CasefoldName account with
  | none => (st, some .accountDoesNotExist)
  | some cf =>
    let s1 := storeDel st.store (.accountExists cf)
    let s2 := storeDel s1 (.accountName cf)
    let s3 := storeDel s2 (.accountVerified cf)
    let s4 := storeDel s3 (.accountRegTime cf)
    let s5 := storeDel s4 (.accountCallback cf)
    let s6 := storeDel s5 (.accountVerificationCode cf)
    let rawNicks := ((storeGet s6 (.accountAdditionalNicks cf)).map (fun e => e.val.toStr)).getD ""
    let s7 := storeDel s6 (.accountAdditionalNicks cf)
    let credOpt := storeGet s7 (.accountCredentials cf)
    let s8 := storeDel s7 (.accountCredentials cf)
    let credsRes : Option AccountCredentials := credOpt.bind (fun e => unmarshalCreds e.val)
    let s9 := unregisterCertCleanup s8 cf credsRes
    let additionalNicks := unmarshalReservedNicks rawNicks
    let clients := (alistGet st.accountToClients cf).getD []
    let nickMap1 := additionalNicks.foldl (fun m nick => alistDel m nick) (alistDel st.nickToAccount cf)
    let clientMap1 := alistDel st.accountToClients cf
    let st1 : SState := { st with store := s9, accountToClients := clientMap1, nickToAccount := nickMap1 }
    let st2 := clients.foldl (fun acc c => logoutOfAccount acc c) st1
    match credsRes with
    | none => (st2, some .accountDoesNotExist)
    | some _ => (st2, none)

/-- Models Register (irc/accounts.go).  The salt and passphrase hash stand
for the values computed by the passphrase hasher before the transaction;
hasTTL models a non-zero Registration.VerifyTimeout; dispatchResult models
the outcome of dispatchCallback (the external mail side effect), carrying
the generated verification code on success. -/
def Register (st : SState) (account : String)
    (callbackNamespace callbackValue : String)
    (passphraseSalt passphraseHash : List Nat) (certfp : String)
    (registeredTimeStr : String) ( renamePrefix : String) (hasTTL : Bool)
    (dispatchResult : Except Unit String) : SState × Option Err :=
  match CasefoldName account with
  | none => (st, some .accountCreation)
  | some cf =>
    if renamePrefix ≠ "" ∧ cf.startsWith renamePrefix then (st, some .accountAlreadyRegistered)
    else if NickToAccount st cf ≠ "" then (st, some .accountAlreadyRegistered)
    else if (loadRawAccount st.store cf).isSome then (st, some .accountAlreadyRegistered)
    else if certfp ≠ "" ∧ (storeGet st.store (.certToAccount certfp)).isSome then (st, some .certfpAlreadyExists)
    else
      let creds : AccountCredentials := ⟨passphraseSalt, passphraseHash, certfp⟩
      let callbackSpec := callbackNamespace ++ ":" ++ callbackValue
      let s1 := storeSet st.store (.accountExists cf) (.str "1") hasTTL
      let s2 := storeSet s1 (.accountName cf) (.str account) hasTTL
      let s3 := storeSet s2 (.accountRegTime cf) (.str registeredTimeStr) hasTTL
      let s4 := storeSet s3 (.accountCredentials cf) (.creds creds) hasTTL
      let s5 := storeSet s4 (.accountCallback cf) (.str callbackSpec) hasTTL
      let s6 := if certfp ≠ "" then storeSet s5 (.certToAccount certfp) (.str cf) hasTTL else s5
      let st1 : SState := { st with store := s6 }
      match dispatchResult with
      | .error _ => ((Unregister st1 cf).1, some .callbackFailed)
      | .ok code =>
        ({ st1 with store := storeSet s6 (.accountVerificationCode cf) (.str code) hasTTL }, none)

/-- Models a buntdb tx.Set that can fail (returning an error instead of
writing), driven by a failure oracle on keys. -/
def txSetF (fail : Key → Bool) (s : Store) (k : Key) (v : StoreValue) (ttl : Bool) : Except Unit Store :=
  if fail k then .error () else .ok (storeSet s k v ttl)

/-- Keeps the store unchanged when a set failed, as code that discards the
error return of tx.Set effectively does. -/
def ignoringSetErr (s : Store) : Except Unit Store → Store
  | .ok s2 => s2
  | .error _ => s

/-- Models the body of Register's single update transaction as written in
the source, against a store whose Set operations may fail: every tx.Set
error return is discarded, so the body still reports success. -/
def registerTxnBody (fail : Key → Bool) (s : Store) (cf account : String)
    (registeredTimeStr : String) (creds : AccountCredentials)
    (callbackSpec : String) (certfp : String) (hasTTL : Bool) : Except Err Store :=
  if (loadRawAccount s cf).isSome then .error .accountAlreadyRegistered
  else if certfp ≠ "" ∧ (storeGet s (.certToAccount certfp)).isSome then .error .certfpAlreadyExists
  else
    let s1 := ignoringSetErr s (txSetF fail s (.accountExists cf) (.str "1") hasTTL)
    let s2 := ignoringSetErr s1 (txSetF fail s1 (.accountName cf) (.str account) hasTTL)
    let s3 := ignoringSetErr s2 (txSetF fail s2 (.accountRegTime cf) (.str registeredTimeStr) hasTTL)
    let s4 := ignoringSetErr s3 (txSetF fail s3 (.accountCredentials cf) (.creds creds) hasTTL)
    let s5 := ignoringSetErr s4 (txSetF fail s4 (.accountCallback cf) (.str callbackSpec) hasTTL)
    let s6 := if certfp ≠ "" then ignoringSetErr s5 (txSetF fail s5 (.certToAccount certfp) (.str cf) hasTTL) else s5
    .ok s6

/-- Models store.Update: on a body error nothing becomes visible, otherwise
the body's writes commit. -/
def storeUpdate (s : Store) (body : Store → Except Err Store) : Store × Option Err :=
  match body s with
  | .ok s2 => (s2, none)
  | .error e => (s, some e)

/-- Models AuthenticateByPassphrase: LoadAccount (fold, existence sentinel,
credential unmarshalling), then the verified check, then the constant-time
passphrase comparison (abstracted as the boolean oracle compare, standing
for passwords.CompareHashAndPassword), then Login under the stored display
name. -/
def AuthenticateByPassphrase (st : SState)
    (compare : List Nat → List Nat → String → Bool)
    (client : Nat) (accountName passphrase : String) : SState × Option Err :=
  match CasefoldName accountName with
  | none => (st, some .accountDoesNotExist)
  | some cf =>
    match loadRawAccount st.store cf with
    | none => (st, some .accountDoesNotExist)
    | some raw =>
      match unmarshalCreds raw.Credentials with
      | none => (st, some .accountDoesNotExist)
      | some creds =>
        if !raw.Verified then (st, some .accountUnverified)
        else if !(compare creds.PassphraseHash creds.PassphraseSalt passphrase) then
          (st, some .accountInvalidCredentials)
        else (Login st client raw.Name.toStr, none)

/-- Names of the accounts that carry an account.exists key, in store
iteration order: buntdb ascends in key order from the scan prefix, and every
account.exists key precedes the first key that lacks the prefix. -/
def existsNames (s : Store) : List String :=
  s.filterMap (fun p => match p.1 with | .accountExists cf => some cf | _ => none)

/-- Per-account step of the startup scan: a verified account inserts its own
folded name; any account with an additionalnicks key inserts every listed
nick, pointing at the account. -/
def indexAccountStep (s : Store) (m : List (String × String)) (accountName : String) : List (String × String) :=
  let m1 := match storeGet s (.accountVerified accountName) with
    | some _ => alistSet m accountName accountName
    | none => m
  match storeGet s (.accountAdditionalNicks accountName) with
  | some e => (unmarshalReservedNicks e.val.toStr).foldl (fun m2 nick => alistSet m2 nick accountName) m1
  | none => m1

/-- Models buildNickToAccountIndex: when nick reservation is enabled, scan
the accounts with an existence sentinel and rebuild the nick cache from
scratch; otherwise keep the old cache. -/
def buildNickToAccountIndex (enabled : Bool) (s : Store) (old : List (String × String)) : List (String × String) :=
  if enabled then (existsNames s).foldl (indexAccountStep s) [] else old

/-- Per-account persistent keys: every key of the schema whose template is
instantiated with the folded account name. -/
def accountKeys (cf : String) : List Key :=
  [.accountExists cf, .accountName cf, .accountVerified cf, .accountRegTime cf,
   .accountCallback cf, .accountVerificationCode cf, .accountAdditionalNicks cf,
   .accountCredentials cf]

/-- Nicks listed under an account's additionalnicks key. -/
def storedNicks (s : Store) (cf : String) : List String :=
  match storeGet s (.accountAdditionalNicks cf) with
  | some e => unmarshalReservedNicks e.val.toStr
  | none => []

/-- Whether the startup scan step for account cf writes an entry for nick:
any account writes its listed additional nicks, a verified account also
writes its own folded name. -/
def contributes (s : Store) (cf nick : String) : Prop :=
  nick ∈ storedNicks s cf ∨ (nick = cf ∧ (storeGet s (.accountVerified cf)).isSome)

instance (s : Store) (cf nick : String) : Decidable (contributes s cf nick) := by
  unfold contributes
  infer_instance

/-- State with an existing, unverified account whose stored verification
code is non-empty. -/
def w1St : SState :=
  { store := [
      (.accountExists "eve", ⟨.str "1", true⟩),
      (.accountVerificationCode "eve", ⟨.str "c0de", true⟩)],
    nickToAccount := [], accountToClients := [], tags := [] }

/-- State with an existing, unverified account all of whose keys, the
additionalnicks key included, carry a TTL, and whose stored verification
code is empty. -/
def c2St : SState :=
  { store := [
      (.accountExists "alice", ⟨.str "1", true⟩),
      (.accountName "alice", ⟨.str "alice", true⟩),
      (.accountRegTime "alice", ⟨.str "0", true⟩),
      (.accountCallback "alice", ⟨.str "none:", true⟩),
      (.accountCredentials "alice", ⟨.creds ⟨[], [], ""⟩, true⟩),
      (.accountAdditionalNicks "alice", ⟨.str "ali", true⟩),
      (.accountVerificationCode "alice", ⟨.str "", true⟩)],
    nickToAccount := [], accountToClients := [], tags := [] }

/-- Store with one unverified account that carries an additionalnicks key. -/
def c4Store : Store :=
  [(.accountExists "bob", ⟨.str "1", true⟩),
   (.accountAdditionalNicks "bob", ⟨.str "b1", true⟩)]

/-- Store with one verified account carrying additional nicks next to one
unverified account carrying additional nicks. -/
def w4Store : Store :=
  [(.accountExists "ann", ⟨.str "1", false⟩),
   (.accountVerified "ann", ⟨.str "1", false⟩),
   (.accountAdditionalNicks "ann", ⟨.str "an1,an2", false⟩),
   (.accountExists "bob", ⟨.str "1", true⟩),
   (.accountAdditionalNicks "bob", ⟨.str "b1", true⟩)]

/-- State with a fully populated verified account, one reserved nick list,
a cert-index entry, and one logged-in session. -/
def w5St : SState :=
  { store := [
      (.accountExists "dan", ⟨.str "1", false⟩),
      (.accountName "dan", ⟨.str "dan", false⟩),
      (.accountVerified "dan", ⟨.str "1", false⟩),
      (.accountCredentials "dan", ⟨.creds ⟨[1], [2], "FP"⟩, false⟩),
      (.accountAdditionalNicks "dan", ⟨.str "d1,d2", false⟩),
      (.certToAccount "FP", ⟨.str "dan", false⟩)],
    nickToAccount := [("dan", "dan"), ("d1", "dan"), ("d2", "dan")],
    accountToClients := [("dan", [some 3])], tags := [(3, "dan")] }

/-- Empty server state. -/
def w6St : SState :=
  { store := [], nickToAccount := [], accountToClients := [], tags := [] }

/-- State with a verified account whose display name differs in case from
the folded name. -/
def w7St : SState :=
  { store := [
      (.accountExists "gina", ⟨.str "1", false⟩),
      (.accountName "gina", ⟨.str "Gina", false⟩),
      (.accountVerified "gina", ⟨.str "1", false⟩),
      (.accountCredentials "gina", ⟨.creds ⟨[1], [2], ""⟩, false⟩)],
    nickToAccount := [], accountToClients := [], tags := [] }

/-- State where session 1 carries account tag a while the session list of a
holds only the different session 2. -/
def c8St : SState :=
  { store := [], nickToAccount := [], accountToClients := [("a", [some 2])], tags := [(1, "a")] }

/-- State where account a has sessions 1 and 2 logged in. -/
def w8St : SState :=
  { store := [], nickToAccount := [], accountToClients := [("a", [some 1, some 2])],
    tags := [(1, "a"), (2, "a")] }

/-- State whose account.credentials key is present but holds a string that
is not a valid credentials blob. -/
def c9St : SState :=
  { store := [
      (.accountCredentials "carol", ⟨.str "garbage", true⟩),
      (.accountExists "carol", ⟨.str "1", true⟩)],
    nickToAccount := [], accountToClients := [], tags := [] }

/-- State where other account keys of carol exist while account.credentials
is absent, with cache entries for carol. -/
def w9St : SState :=
  { store := [
      (.accountExists "carol", ⟨.str "1", true⟩),
      (.accountName "carol", ⟨.str "carol", true⟩)],
    nickToAccount := [("carol", "carol")],
    accountToClients := [("carol", [some 4])], tags := [(4, "carol")] }

theorem alistGet_set {α β : Type} [DecidableEq α]
    (l : List (α × β)) (k k2 : α) (v : β) :
    alistGet (alistSet l k v) k2 = if k2 = k then some v else alistGet l k2 := by
  induction l with
  | nil =>
    by_cases h : k2 = k <;> simp [alistGet, alistSet, h]
  | cons a t ih =>
    obtain ⟨ka, va⟩ := a
    by_cases h1 : k = ka
    · subst h1
      by_cases h2 : k2 = k <;> simp [alistGet, alistSet, h2]
    · by_cases h2 : k2 = ka
      · subst h2
        simp [alistGet, alistSet, h1, Ne.symm h1]
      · by_cases h3 : k2 = k
        · subst h3
          simp [alistGet, alistSet, h1, h2, ih]
        · simp [alistGet, alistSet, h1, h2, h3, ih]

theorem alistGet_del {α β : Type} [DecidableEq α]
    (l : List (α × β)) (k k2 : α) :
    alistGet (alistDel l k) k2 = if k2 = k then none else alistGet l k2 := by
  induction l with
  | nil =>
    by_cases h : k2 = k <;> simp [alistGet, alistDel, h]
  | cons a t ih =>
    obtain ⟨ka, va⟩ := a
    by_cases h1 : k = ka
    · subst h1
      by_cases h2 : k2 = k
      · subst h2
        simp [alistGet, alistDel, ih]
      · simp [alistGet, alistDel, h2, ih]
    · by_cases h2 : k2 = ka
      · subst h2
        simp [alistGet, alistDel, h1, Ne.symm h1, ih]
      · by_cases h3 : k2 = k
        · subst h3
          simp [alistGet, alistDel, h1, h2, ih]
        · simp [alistGet, alistDel, h1, h2, h3, ih]

theorem storeGet_set (s : Store) (k k2 : Key) (v : StoreValue) (ttl : Bool) :
    storeGet (storeSet s k v ttl) k2 = if k2 = k then some ⟨v, ttl⟩ else storeGet s k2 :=
  alistGet_set s k k2 ⟨v, ttl⟩

theorem storeGet_del (s : Store) (k k2 : Key) :
    storeGet (storeDel s k) k2 = if k2 = k then none else storeGet s k2 :=
  alistGet_del s k k2

theorem splitComma_no_comma (x : List Char) (hx : ',' ∉ x) : splitComma x = [x] := by
  induction x with
  | nil => rfl
  | cons c cs ih =>
    have hc : ¬ c = ',' := fun h => hx (h ▸ List.mem_cons_self c cs)
    have hcs : ',' ∉ cs := fun h => hx (List.mem_cons_of_mem c h)
    simp [splitComma, hc, ih hcs]

theorem splitComma_append (x t : List Char) (hx : ',' ∉ x) :
    splitComma (x ++ ',' :: t) = x :: splitComma t := by
  induction x with
  | nil => simp [splitComma]
  | cons c cs ih =>
    have hc : ¬ c = ',' := fun h => hx (h ▸ List.mem_cons_self c cs)
    have hcs : ',' ∉ cs := fun h => hx (List.mem_cons_of_mem c h)
    simp only [List.cons_append, splitComma, if_neg hc, List.append_eq]
    rw [ih hcs]

theorem splitComma_joinComma (xs : List (List Char)) (hne : xs ≠ [])
    (h : ∀ x ∈ xs, ',' ∉ x) :
    splitComma (joinComma xs) = xs := by
  induction xs with
  | nil => exact absurd rfl hne
  | cons x rest ih =>
    cases rest with
    | nil =>
      simp [joinComma, splitComma_no_comma x (h x (List.mem_cons_self x []))]
    | cons y ys =>
      have hx : ',' ∉ x := h x (List.mem_cons_self x (y :: ys))
      have hrest : ∀ z ∈ y :: ys, ',' ∉ z := fun z hz => h z (List.mem_cons_of_mem x hz)
      calc splitComma (joinComma (x :: y :: ys))
          = splitComma (x ++ ',' :: joinComma (y :: ys)) := rfl
        _ = x :: splitComma (joinComma (y :: ys)) := splitComma_append _ _ hx
        _ = x :: y :: ys := by rw [ih (by simp) hrest]

theorem string_mk_data (s : String) : String.mk s.data = s := by
  cases s
  rfl

theorem string_data_ne_nil (s : String) (h : s ≠ "") : s.data ≠ [] := fun hd =>
  h (by rw [← string_mk_data s, hd])

theorem joinComma_ne_nil (x : List Char) (xs : List (List Char)) (hx : x ≠ []) :
    joinComma (x :: xs) ≠ [] := by
  cases xs with
  | nil => simpa [joinComma] using hx
  | cons y ys => simp [joinComma]

/-- C10: the reserved-nick codec round-trips: for every list of nicks whose
elements are non-empty and comma-free, unmarshalReservedNicks inverts
marshalReservedNicks; marshalling the empty list yields the empty string,
which unmarshals back to the empty list. -/
theorem marshal_unmarshal_reserved_nicks (nicks : List String)
    (h : ∀ n ∈ nicks, n ≠ "" ∧ ',' ∉ n.data) :
    unmarshalReservedNicks (marshalReservedNicks nicks) = nicks ∧
    marshalReservedNicks [] = "" ∧
    unmarshalReservedNicks "" = [] := by
  refine ⟨?_, by decide, by decide⟩
  cases nicks with
  | nil => decide
  | cons n rest =>
    have hall : ∀ x ∈ (n :: rest).map String.data, ',' ∉ x := by
      intro x hx
      obtain ⟨m, hm, rfl⟩ := List.mem_map.mp hx
      exact (h m hm).2
    have hndata : n.data ≠ [] := string_data_ne_nil n (h n (List.mem_cons_self _ _)).1
    have hjoin : joinComma ((n :: rest).map String.data) ≠ [] := by
      simpa using joinComma_ne_nil n.data (rest.map String.data) hndata
    have hmkne : String.mk (joinComma ((n :: rest).map String.data)) ≠ "" := by
      intro hmk
      exact hjoin (by simpa using congrArg String.data hmk)
    unfold marshalReservedNicks unmarshalReservedNicks
    rw [if_neg hmkne]
    rw [show (String.mk (joinComma ((n :: rest).map String.data))).data =
        joinComma ((n :: rest).map String.data) from rfl]
    rw [splitComma_joinComma _ (by simp) hall, List.map_map]
    simp [Function.comp_def, string_mk_data]

/-- C10 witness. -/
theorem marshal_unmarshal_reserved_nicks_witness :
    unmarshalReservedNicks (marshalReservedNicks ["ali", "al"]) = ["ali", "al"] :=
  (marshal_unmarshal_reserved_nicks ["ali", "al"] (by decide)).1

/-- C3 (demonstration of the divergence): the body of Register's update
transaction as written in the source discards the error returns of the
inner tx.Set calls, so a failing Set of the account.credentials key still
commits: no error is reported and the other account keys (the existence
sentinel among them) become visible in the store, while the claim and the
spec require the transaction to abort with no key visible. -/
theorem register_txn_ignores_set_error :
    (storeUpdate [] (fun s => registerTxnBody (fun k => k == Key.accountCredentials "alice") s
        "alice" "alice" "0" ⟨[], [], ""⟩ "none:" "" true)).2 = none ∧
    storeGet (storeUpdate [] (fun s => registerTxnBody (fun k => k == Key.accountCredentials "alice") s
        "alice" "alice" "0" ⟨[], [], ""⟩ "none:" "" true)).1 (.accountExists "alice") = some ⟨.str "1", true⟩ ∧
    storeGet (storeUpdate [] (fun s => registerTxnBody (fun k => k == Key.accountCredentials "alice") s
        "alice" "alice" "0" ⟨[], [], ""⟩ "none:" "" true)).1 (.accountCredentials "alice") = none := by
  decide

/-- C2 counterexample: on the state c2St the Verify transaction succeeds,
yet the account.additionalnicks key of the account still carries its TTL
afterwards, because Verify does not re-write that key; the claim that every
other persistent key is re-written TTL-less is false as stated. -/
theorem verify_ttl_counterexample :
    (Verify c2St 7 "alice" "x").2 = none ∧
    storeGet (Verify c2St 7 "alice" "x").1.store (.accountAdditionalNicks "alice") =
      some ⟨.str "ali", true⟩ := by
  decide

/-- C4 counterexample: in the store c4Store the account bob has no
account.verified key, yet after the rebuild its additional nick b1 maps to
bob, so an unverified account does contribute entries. -/
theorem build_index_counterexample :
    storeGet c4Store (.accountVerified "bob") = none ∧
    alistGet (buildNickToAccountIndex true c4Store []) "b1" = some "bob" := by
  decide

/-- C8 counterexample: in the state c8St session 1 carries account tag a
while the session list of a holds only session 2; Logout of session 1
deletes the whole mapping entry, erasing the entry of the other session
instead of leaving it unchanged. -/
theorem logout_counterexample :
    clientAccount c8St 1 = "a" ∧
    alistGet c8St.accountToClients "a" = some [some 2] ∧
    (Logout c8St 1).map (fun st => alistGet st.accountToClients "a") = some none := by
  decide

/-- C9 counterexample: in the state c9St the account.credentials key is
present at the start of the transaction, but its value fails to unmarshal,
and Unregister still returns errAccountDoesNotExist, so the result is not
decided by key presence alone. -/
theorem unregister_result_counterexample :
    (storeGet c9St.store (.accountCredentials "carol")).isSome = true ∧
    (Unregister c9St "carol").2 = some .accountDoesNotExist := by
  decide

/-- C1: Verify on an existing, unverified account whose stored verification
code is the string v succeeds for every input when v is the empty string
(no code required), and otherwise succeeds exactly when the input code
equals v, failing with errAccountVerificationInvalidCode on mismatch.  The
constant-time property of subtle.ConstantTimeCompare is a timing property;
its functional content, equality of the compared strings, is what the model
captures. -/
theorem verify_code_check (st : SState) (client : Nat) (account cf code v : String)
    (tc : Bool)
    (hFold : CasefoldName account = some cf)
    (hExists : (storeGet st.store (.accountExists cf)).isSome = true)
    (hUnverified : storeGet st.store (.accountVerified cf) = none)
    (hCode : storeGet st.store (.accountVerificationCode cf) = some ⟨.str v, tc⟩) :
    (v = "" → (Verify st client account code).2 = none) ∧
    (v ≠ "" → (((Verify st client account code).2 = none) ↔ code = v) ∧
      (code ≠ v → (Verify st client account code).2 = some .accountVerificationInvalidCode)) := by
  obtain ⟨e, he⟩ := Option.isSome_iff_exists.mp hExists
  refine ⟨?_, ?_⟩
  · intro hv
    subst hv
    simp [Verify, hFold, loadRawAccount, he, hUnverified, hCode, StoreValue.toStr]
  · intro hv
    refine ⟨⟨?_, ?_⟩, ?_⟩
    · intro hres
      by_contra hcv
      simp [Verify, hFold, loadRawAccount, he, hUnverified, hCode, StoreValue.toStr, hv, hcv] at hres
    · intro hcv
      subst hcv
      simp [Verify, hFold, loadRawAccount, he, hUnverified, hCode, StoreValue.toStr, hv]
    · intro hcv
      simp [Verify, hFold, loadRawAccount, he, hUnverified, hCode, StoreValue.toStr, hv, hcv]

/-- C1 witness: concrete Verify calls against the stored code c0de. -/
theorem verify_code_check_witness :
    (Verify w1St 7 "eve" "c0de").2 = none ∧
    (Verify w1St 7 "eve" "bad").2 = some Err.accountVerificationInvalidCode := by
  constructor
  · exact ((verify_code_check w1St 7 "eve" "eve" "c0de" "c0de" true (by decide) (by decide)
      (by decide) (by decide)).2 (by decide)).1.mpr rfl
  · exact ((verify_code_check w1St 7 "eve" "eve" "bad" "c0de" true (by decide) (by decide)
      (by decide) (by decide)).2 (by decide)).2 (by decide)

theorem logoutOfAccount_store (st : SState) (c : Option Nat) :
    (logoutOfAccount st c).store = st.store := by
  cases c with
  | none => rfl
  | some n =>
    by_cases h : clientAccount st n = "" <;> simp [logoutOfAccount, SetAccountName, h]

theorem logoutOfAccount_nickMap (st : SState) (c : Option Nat) :
    (logoutOfAccount st c).nickToAccount = st.nickToAccount := by
  cases c with
  | none => rfl
  | some n =>
    by_cases h : clientAccount st n = "" <;> simp [logoutOfAccount, SetAccountName, h]

theorem logoutOfAccount_clientMap (st : SState) (c : Option Nat) :
    (logoutOfAccount st c).accountToClients = st.accountToClients := by
  cases c with
  | none => rfl
  | some n =>
    by_cases h : clientAccount st n = "" <;> simp [logoutOfAccount, SetAccountName, h]

theorem foldl_logout_store (l : List (Option Nat)) (st : SState) :
    (l.foldl (fun acc c => logoutOfAccount acc c) st).store = st.store := by
  induction l generalizing st with
  | nil => rfl
  | cons c t ih => rw [List.foldl_cons, ih, logoutOfAccount_store]

theorem foldl_logout_nickMap (l : List (Option Nat)) (st : SState) :
    (l.foldl (fun acc c => logoutOfAccount acc c) st).nickToAccount = st.nickToAccount := by
  induction l generalizing st with
  | nil => rfl
  | cons c t ih => rw [List.foldl_cons, ih, logoutOfAccount_nickMap]

theorem foldl_logout_clientMap (l : List (Option Nat)) (st : SState) :
    (l.foldl (fun acc c => logoutOfAccount acc c) st).accountToClients = st.accountToClients := by
  induction l generalizing st with
  | nil => rfl
  | cons c t ih => rw [List.foldl_cons, ih, logoutOfAccount_clientMap]

theorem alistGet_foldl_del {α β : Type} [DecidableEq α]
    (l : List α) (m : List (α × β)) (x : α) :
    alistGet (l.foldl (fun m2 k => alistDel m2 k) m) x =
    if x ∈ l then none else alistGet m x := by
  induction l generalizing m with
  | nil => simp
  | cons k t ih =>
    rw [List.foldl_cons, ih]
    by_cases hx : x ∈ t
    · simp [hx]
    · by_cases hk : x = k
      · subst hk
        simp [hx, alistGet_del]
      · simp [hx, hk, alistGet_del]

theorem storeGet_certCleanup_ne (s : Store) (cf : String)
    (cr : Option AccountCredentials) (k : Key) (hk : k.isCert = false) :
    storeGet (unregisterCertCleanup s cf cr) k = storeGet s k := by
  have hne : ∀ fp, ¬ k = Key.certToAccount fp := by
    intro fp h
    subst h
    simp [Key.isCert] at hk
  unfold unregisterCertCleanup
  rcases cr with _ | creds
  · rfl
  · by_cases hcert : creds.Certificate ≠ ""
    · simp only [if_pos hcert]
      rcases hfp : storeGet s (.certToAccount creds.Certificate) with _ | e2
      · rfl
      · by_cases he2 : e2.val.toStr = cf
        · simp only [if_pos he2, storeGet_del, if_neg (hne creds.Certificate)]
        · simp only [if_neg he2]
    · simp only [if_neg hcert]

theorem unregister_spec (st : SState) (account cf : String)
    (hFold : CasefoldName account = some cf) :
    ((Unregister st account).2 =
      if ((storeGet st.store (.accountCredentials cf)).bind (fun e => unmarshalCreds e.val)).isSome
      then none else some Err.accountDoesNotExist) ∧
    (∀ k ∈ accountKeys cf, storeGet (Unregister st account).1.store k = none) ∧
    alistGet (Unregister st account).1.nickToAccount cf = none ∧
    (∀ nick ∈ storedNicks st.store cf, alistGet (Unregister st account).1.nickToAccount nick = none) ∧
    alistGet (Unregister st account).1.accountToClients cf = none := by
  refine ⟨?_, ?_, ?_, ?_, ?_⟩
  · rcases hc : storeGet st.store (.accountCredentials cf) with _ | ce
    · simp [Unregister, hFold, storeGet_del, hc]
    · rcases ce with ⟨cv, ct⟩
      rcases cv with sv | c
      · simp [Unregister, hFold, storeGet_del, hc, unmarshalCreds]
      · simp [Unregister, hFold, storeGet_del, hc, unmarshalCreds]
  · intro k hk
    rcases hc : storeGet st.store (.accountCredentials cf) with _ | ce
    · fin_cases hk <;>
        simp [Unregister, hFold, foldl_logout_store, storeGet_certCleanup_ne, Key.isCert,
          storeGet_del, hc]
    · rcases ce with ⟨cv, ct⟩
      rcases cv with sv | c <;>
        fin_cases hk <;>
          simp [Unregister, hFold, foldl_logout_store, storeGet_certCleanup_ne, Key.isCert,
            storeGet_del, hc, unmarshalCreds]
  · rcases hc : storeGet st.store (.accountCredentials cf) with _ | ce
    · simp [Unregister, hFold, foldl_logout_nickMap, alistGet_foldl_del, alistGet_del,
        storeGet_del, hc]
    · rcases ce with ⟨cv, ct⟩
      rcases cv with sv | c <;>
        simp [Unregister, hFold, foldl_logout_nickMap, alistGet_foldl_del, alistGet_del,
          storeGet_del, hc, unmarshalCreds]
  · intro nick hnick
    rcases hn : storeGet st.store (.accountAdditionalNicks cf) with _ | e
    · simp [storedNicks, hn] at hnick
    · simp only [storedNicks, hn] at hnick
      rcases hc : storeGet st.store (.accountCredentials cf) with _ | ce
      · simp [Unregister, hFold, foldl_logout_nickMap, alistGet_foldl_del, alistGet_del,
          storeGet_del, hn, hnick, hc]
      · rcases ce with ⟨cv, ct⟩
        rcases cv with sv | c <;>
          simp [Unregister, hFold, foldl_logout_nickMap, alistGet_foldl_del, alistGet_del,
            storeGet_del, hn, hnick, hc, unmarshalCreds]
  · rcases hc : storeGet st.store (.accountCredentials cf) with _ | ce
    · simp [Unregister, hFold, foldl_logout_clientMap, alistGet_del, storeGet_del, hc]
    · rcases ce with ⟨cv, ct⟩
      rcases cv with sv | c <;>
        simp [Unregister, hFold, foldl_logout_clientMap, alistGet_del, storeGet_del, hc,
          unmarshalCreds]

theorem unregister_no_new_nick (st : SState) (account x : String)
    (hx : alistGet st.nickToAccount x = none) :
    alistGet (Unregister st account).1.nickToAccount x = none := by
  rcases hFold : CasefoldName account with _ | cf
  · simpa [Unregister, hFold] using hx
  · rcases hc : storeGet st.store (.accountCredentials cf) with _ | ce
    · simp [Unregister, hFold, foldl_logout_nickMap, alistGet_foldl_del, alistGet_del,
        storeGet_del, hc, hx]
    · rcases ce with ⟨cv, ct⟩
      rcases cv with sv | c <;>
        simp [Unregister, hFold, foldl_logout_nickMap, alistGet_foldl_del, alistGet_del,
          storeGet_del, hc, unmarshalCreds, hx]

/-- C5: Unregister is idempotent: after a first Unregister of the account, a
second Unregister returns errAccountDoesNotExist, and afterwards no
persistent account key of the folded name remains, the nick cache maps
neither the folded name nor any of its stored additional nicks, and the
session cache has no entry for the account. -/
theorem unregister_idempotent (st : SState) (account cf : String)
    (hFold : CasefoldName account = some cf) :
    (Unregister (Unregister st account).1 account).2 = some Err.accountDoesNotExist ∧
    (∀ k ∈ accountKeys cf,
      storeGet (Unregister (Unregister st account).1 account).1.store k = none) ∧
    alistGet (Unregister (Unregister st account).1 account).1.nickToAccount cf = none ∧
    (∀ nick ∈ storedNicks st.store cf,
      alistGet (Unregister (Unregister st account).1 account).1.nickToAccount nick = none) ∧
    alistGet (Unregister (Unregister st account).1 account).1.accountToClients cf = none := by
  have h1 := unregister_spec st account cf hFold
  have h2 := unregister_spec (Unregister st account).1 account cf hFold
  have hcredgone : storeGet (Unregister st account).1.store (.accountCredentials cf) = none :=
    h1.2.1 (.accountCredentials cf) (by simp [accountKeys])
  refine ⟨?_, h2.2.1, h2.2.2.1, ?_, h2.2.2.2.2⟩
  · rw [h2.1, hcredgone]
    simp
  · intro nick hnick
    exact unregister_no_new_nick (Unregister st account).1 account nick
      (h1.2.2.2.1 nick hnick)

/-- C5 witness: a populated verified account with reserved nicks, a cert
entry and a logged-in session, unregistered twice. -/
theorem unregister_idempotent_witness :
    (Unregister (Unregister w5St "dan").1 "dan").2 = some Err.accountDoesNotExist ∧
    storeGet (Unregister (Unregister w5St "dan").1 "dan").1.store (.accountExists "dan") = none ∧
    alistGet (Unregister (Unregister w5St "dan").1 "dan").1.nickToAccount "d1" = none :=
  ⟨(unregister_idempotent w5St "dan" "dan" (by decide)).1,
   (unregister_idempotent w5St "dan" "dan" (by decide)).2.1 (.accountExists "dan") (by simp [accountKeys]),
   (unregister_idempotent w5St "dan" "dan" (by decide)).2.2.2.1 "d1" (by decide)⟩

/-- C9 (amended): Unregister returns errAccountDoesNotExist exactly when
reading the account.credentials key failed or its stored value failed to
unmarshal; in either case every per-account key is still deleted and the
cache entries for the account are still evicted.  (The claim's phrase
"exactly when that key was absent" misses the present-but-undecodable
value.) -/
theorem unregister_decided_by_credentials (st : SState) (account cf : String)
    (hFold : CasefoldName account = some cf) :
    ((Unregister st account).2 = some Err.accountDoesNotExist ↔
      ((storeGet st.store (.accountCredentials cf)).bind (fun e => unmarshalCreds e.val)) = none) ∧
    (∀ k ∈ accountKeys cf, storeGet (Unregister st account).1.store k = none) ∧
    alistGet (Unregister st account).1.nickToAccount cf = none ∧
    alistGet (Unregister st account).1.accountToClients cf = none := by
  have h := unregister_spec st account cf hFold
  refine ⟨?_, h.2.1, h.2.2.1, h.2.2.2.2⟩
  rw [h.1]
  cases hbind : (storeGet st.store (.accountCredentials cf)).bind (fun e => unmarshalCreds e.val) with
  | none => simp
  | some c => simp

/-- C9 witness: other account keys of carol exist while account.credentials
is absent; the keys are deleted, the caches evicted, and
errAccountDoesNotExist is returned. -/
theorem unregister_decided_by_credentials_witness :
    (Unregister w9St "carol").2 = some Err.accountDoesNotExist ∧
    storeGet (Unregister w9St "carol").1.store (.accountExists "carol") = none ∧
    alistGet (Unregister w9St "carol").1.nickToAccount "carol" = none ∧
    alistGet (Unregister w9St "carol").1.accountToClients "carol" = none :=
  ⟨(unregister_decided_by_credentials w9St "carol" "carol" (by decide)).1.mpr (by decide),
   (unregister_decided_by_credentials w9St "carol" "carol" (by decide)).2.1
     (.accountExists "carol") (by simp [accountKeys]),
   (unregister_decided_by_credentials w9St "carol" "carol" (by decide)).2.2.1,
   (unregister_decided_by_credentials w9St "carol" "carol" (by decide)).2.2.2⟩

theorem Login_store (st : SState) (c : Nat) (a : String) : (Login st c a).store = st.store := by
  simp [Login, SetAccountName]

/-- C2 (amended): on every successful Verify the transaction writes
account.verified without TTL, deletes account.verificationcode, and
re-writes the exists, name, registered-time, callback and credentials keys
without TTL — but it does not re-write the account.additionalnicks key,
which keeps exactly its previous entry, TTL included. -/
theorem verify_promotes_keys (st : SState) (client : Nat) (account cf code : String)
    (hFold : CasefoldName account = some cf)
    (hOk : (Verify st client account code).2 = none) :
    storeGet (Verify st client account code).1.store (.accountVerified cf) = some ⟨.str "1", false⟩ ∧
    storeGet (Verify st client account code).1.store (.accountVerificationCode cf) = none ∧
    storeGet (Verify st client account code).1.store (.accountExists cf) = some ⟨.str "1", false⟩ ∧
    (∃ v, storeGet (Verify st client account code).1.store (.accountName cf) = some ⟨v, false⟩) ∧
    (∃ v, storeGet (Verify st client account code).1.store (.accountRegTime cf) = some ⟨v, false⟩) ∧
    (∃ v, storeGet (Verify st client account code).1.store (.accountCallback cf) = some ⟨v, false⟩) ∧
    (∃ v, storeGet (Verify st client account code).1.store (.accountCredentials cf) = some ⟨v, false⟩) ∧
    storeGet (Verify st client account code).1.store (.accountAdditionalNicks cf) =
      storeGet st.store (.accountAdditionalNicks cf) := by
  rcases hload : loadRawAccount st.store cf with _ | raw
  · simp [Verify, hFold, hload] at hOk
  · rcases hvrf : raw.Verified
    · rcases hcode : storeGet st.store (.accountVerificationCode cf) with _ | ce
      · simp [Verify, hFold, hload, hvrf, hcode] at hOk
      · rcases hb : (ce.val.toStr == "") || (code == ce.val.toStr)
        · simp [Verify, hFold, hload, hvrf, hcode, hb] at hOk
        · by_cases hcert : ((unmarshalCreds raw.Credentials).getD ⟨[], [], ""⟩).Certificate ≠ "" <;>
            simp [Verify, hFold, hload, hvrf, hcode, hb, hcert, Login_store,
              storeGet_set, storeGet_del]
    · simp [Verify, hFold, hload, hvrf] at hOk

/-- C2 witness: a successful Verify of an account whose keys carry TTLs,
showing the promoted keys. -/
theorem verify_promotes_keys_witness :
    storeGet (Verify c2St 7 "alice" "x").1.store (.accountVerified "alice") = some ⟨.str "1", false⟩ ∧
    storeGet (Verify c2St 7 "alice" "x").1.store (.accountVerificationCode "alice") = none ∧
    storeGet (Verify c2St 7 "alice" "x").1.store (.accountExists "alice") = some ⟨.str "1", false⟩ :=
  ⟨(verify_promotes_keys c2St 7 "alice" "alice" "x" (by decide) (by decide)).1,
   (verify_promotes_keys c2St 7 "alice" "alice" "x" (by decide) (by decide)).2.1,
   (verify_promotes_keys c2St 7 "alice" "alice" "x" (by decide) (by decide)).2.2.1⟩

theorem casefold_idem (account cf : String) (h : CasefoldName account = some cf) :
    CasefoldName cf = some cf := by
  unfold CasefoldName at h ⊢
  by_cases hg : account = "" ∨ account = "*"
  · simp [hg] at h
  · simp only [hg, if_neg, if_false] at h
    simp only [Option.some.injEq] at h
    subst h
    simp [hg]

/-- C6: when Register's single update transaction has committed (all guards
passed), a failed callback dispatch makes Register invoke the compensating
Unregister and return errCallbackFailed, so no per-account key remains in
the store; a successful dispatch stores the generated code under
account.verificationcode with the same TTL option as every other account
key. -/
theorem register_callback (st : SState) (account cbNs cbVal : String)
    (salt hash : List Nat) (certfp regTime rp : String) (hasTTL : Bool) (cf : String)
    (hFold : CasefoldName account = some cf)
    (hPre : ¬(rp ≠ "" ∧ cf.startsWith rp))
    (hNick : NickToAccount st cf = "")
    (hNotExists : storeGet st.store (.accountExists cf) = none)
    (hCert : ¬(certfp ≠ "" ∧ (storeGet st.store (.certToAccount certfp)).isSome)) :
    ((Register st account cbNs cbVal salt hash certfp regTime rp hasTTL (.error ())).2 =
        some Err.callbackFailed ∧
      (∀ k ∈ accountKeys cf,
        storeGet (Register st account cbNs cbVal salt hash certfp regTime rp hasTTL
          (.error ())).1.store k = none)) ∧
    (∀ code,
      (Register st account cbNs cbVal salt hash certfp regTime rp hasTTL (.ok code)).2 = none ∧
      storeGet (Register st account cbNs cbVal salt hash certfp regTime rp hasTTL
        (.ok code)).1.store (.accountVerificationCode cf) = some ⟨.str code, hasTTL⟩ ∧
      storeGet (Register st account cbNs cbVal salt hash certfp regTime rp hasTTL
        (.ok code)).1.store (.accountExists cf) = some ⟨.str "1", hasTTL⟩) := by
  have hFoldCf := casefold_idem account cf hFold
  have hload : loadRawAccount st.store cf = none := by
    simp [loadRawAccount, hNotExists]
  refine ⟨⟨?_, ?_⟩, ?_⟩
  · simp [Register, hFold, hPre, hNick, hload, hCert]
  · intro k hk
    simp [Register, hFold, hPre, hNick, hload, hCert]
    exact (unregister_spec _ cf cf hFoldCf).2.1 k hk
  · intro code
    by_cases hcfp : certfp = ""
    · simp [Register, hFold, hPre, hNick, hload, hCert, hcfp, storeGet_set]
    · have hc2 : ¬ (storeGet st.store (Key.certToAccount certfp)).isSome = true :=
        fun hs => hCert ⟨hcfp, hs⟩
      simp [Register, hFold, hPre, hNick, hload, hcfp, hc2, storeGet_set]

/-- C6 witness: registration against the empty state, with a failing and a
succeeding dispatch. -/
theorem register_callback_witness :
    (Register w6St "frank" "none" "" [] [] "" "0" "" true (.error ())).2 = some Err.callbackFailed ∧
    storeGet (Register w6St "frank" "none" "" [] [] "" "0" "" true (.ok "abc")).1.store
      (.accountVerificationCode "frank") = some ⟨.str "abc", true⟩ :=
  ⟨(register_callback w6St "frank" "none" "" [] [] "" "0" "" true "frank" (by decide) (by decide)
      (by decide) (by decide) (by decide)).1.1,
   ((register_callback w6St "frank" "none" "" [] [] "" "0" "" true "frank" (by decide) (by decide)
      (by decide) (by decide) (by decide)).2 "abc").2.1⟩

/-- C7: AuthenticateByPassphrase returns errAccountDoesNotExist when no
account exists under the folded name, errAccountUnverified when the account
exists but is not verified, errAccountInvalidCredentials when the
passphrase comparison fails, and otherwise logs the session into the
account (the session is appended to the account's client list under its
stored display name); the three error kinds are pairwise distinct.  The
hypotheses pin the stored credentials blob and display name, as every
store reachable through Register provides. -/
theorem authenticate_by_passphrase (st : SState)
    (compare : List Nat → List Nat → String → Bool) (client : Nat)
    (name pass cf dispName : String) (c : AccountCredentials) (tC tN : Bool)
    (hFold : CasefoldName name = some cf)
    (hCred : storeGet st.store (.accountCredentials cf) = some ⟨.creds c, tC⟩)
    (hName : storeGet st.store (.accountName cf) = some ⟨.str dispName, tN⟩) :
    (storeGet st.store (.accountExists cf) = none →
      AuthenticateByPassphrase st compare client name pass = (st, some Err.accountDoesNotExist)) ∧
    ((storeGet st.store (.accountExists cf)).isSome = true →
      storeGet st.store (.accountVerified cf) = none →
      AuthenticateByPassphrase st compare client name pass = (st, some Err.accountUnverified)) ∧
    ((storeGet st.store (.accountExists cf)).isSome = true →
      (storeGet st.store (.accountVerified cf)).isSome = true →
      compare c.PassphraseHash c.PassphraseSalt pass = false →
      AuthenticateByPassphrase st compare client name pass =
        (st, some Err.accountInvalidCredentials)) ∧
    ((storeGet st.store (.accountExists cf)).isSome = true →
      (storeGet st.store (.accountVerified cf)).isSome = true →
      compare c.PassphraseHash c.PassphraseSalt pass = true →
      (AuthenticateByPassphrase st compare client name pass).2 = none ∧
      some client ∈ ((alistGet (AuthenticateByPassphrase st compare client name
        pass).1.accountToClients dispName).getD [])) ∧
    (Err.accountDoesNotExist ≠ Err.accountUnverified ∧
     Err.accountUnverified ≠ Err.accountInvalidCredentials ∧
     Err.accountDoesNotExist ≠ Err.accountInvalidCredentials) := by
  refine ⟨?_, ?_, ?_, ?_, by decide⟩
  · intro hE
    simp [AuthenticateByPassphrase, hFold, loadRawAccount, hE]
  · intro hE hV
    obtain ⟨e, he⟩ := Option.isSome_iff_exists.mp hE
    simp [AuthenticateByPassphrase, hFold, loadRawAccount, he, hCred, hV, unmarshalCreds]
  · intro hE hV hcomp
    obtain ⟨e, he⟩ := Option.isSome_iff_exists.mp hE
    obtain ⟨ev, hev⟩ := Option.isSome_iff_exists.mp hV
    simp [AuthenticateByPassphrase, hFold, loadRawAccount, he, hev, hCred, unmarshalCreds, hcomp]
  · intro hE hV hcomp
    obtain ⟨e, he⟩ := Option.isSome_iff_exists.mp hE
    obtain ⟨ev, hev⟩ := Option.isSome_iff_exists.mp hV
    constructor
    · simp [AuthenticateByPassphrase, hFold, loadRawAccount, he, hev, hCred, unmarshalCreds, hcomp]
    · simp [AuthenticateByPassphrase, hFold, loadRawAccount, he, hev, hCred, hName,
        unmarshalCreds, hcomp, Login, SetAccountName, clientAccount, alistGet_set,
        StoreValue.toStr]

/-- C7 witness: concrete authentication against the stored account gina
with display name Gina. -/
theorem authenticate_by_passphrase_witness :
    (AuthenticateByPassphrase w7St (fun _ _ p => p == "pw") 9 "gina" "pw").2 = none ∧
    some 9 ∈ ((alistGet (AuthenticateByPassphrase w7St (fun _ _ p => p == "pw") 9 "gina"
      "pw").1.accountToClients "Gina").getD []) :=
  (authenticate_by_passphrase w7St (fun _ _ p => p == "pw") 9 "gina" "pw" "gina" "Gina"
    ⟨[1], [2], ""⟩ false false (by decide) (by decide) (by decide)).2.2.2.1
    (by decide) (by decide) (by decide)

theorem length_filter_ne_add_count {α : Type} [BEq α] [LawfulBEq α] (l : List α) (v : α) :
    (l.filter (fun x => x != v)).length + l.count v = l.length := by
  induction l with
  | nil => rfl
  | cons x t ih =>
    simp only [bne] at ih
    by_cases hx : x = v
    · subst hx
      simp [List.filter_cons, List.count_cons, bne]
      omega
    · have hb : (x == v) = false := beq_eq_false_iff_ne.mpr hx
      simp [List.filter_cons, List.count_cons, bne, hb]
      omega

/-- C8 (amended): for every state in which the session's current account a
is non-empty and the session occurs exactly once (by identity) in the
client list of a, Logout removes exactly that occurrence — deleting the
mapping entry when the list thereby becomes empty — leaves every other
account's entry unchanged, and clears the session's account tag.  (The
original claim quantified over every state; the counterexample shows a
state violating it, so the exactly-once occurrence condition is required.) -/
theorem logout_removes_single (st : SState) (c : Nat) (a : String)
    (hTag : clientAccount st c = a) (hA : a ≠ "")
    (hCount : ((alistGet st.accountToClients a).getD []).count (some c) = 1) :
    ((Logout st c).map (fun st2 => alistGet st2.accountToClients a) =
      some (if ((alistGet st.accountToClients a).getD []).length ≤ 1 then none
            else some (((alistGet st.accountToClients a).getD []).filter
              (fun x => x != some c)))) ∧
    (∀ b, b ≠ a → (Logout st c).map (fun st2 => alistGet st2.accountToClients b) =
      some (alistGet st.accountToClients b)) ∧
    ((Logout st c).map (fun st2 => clientAccount st2 c) = some "") := by
  subst hTag
  have hne : clientAccount st c ≠ "" := hA
  by_cases hlen : ((alistGet st.accountToClients (clientAccount st c)).getD []).length ≤ 1
  · have hcs : (alistGet st.accountToClients (clientAccount st c)).getD [] = [some c] := by
      rcases hget : (alistGet st.accountToClients (clientAccount st c)).getD [] with _ | ⟨x, t⟩
      · rw [hget] at hCount
        simp at hCount
      · rw [hget] at hCount hlen
        cases t with
        | cons y ys => simp at hlen
        | nil =>
          have hx : x = some c := by
            by_contra hx
            simp [List.count_cons] at hCount
            exact hx hCount
          rw [hx]
    refine ⟨?_, ?_, ?_⟩
    · simp [Logout, hne, logoutOfAccount, SetAccountName, hcs, alistGet_del, hlen]
    · intro b hb
      simp [Logout, hne, logoutOfAccount, SetAccountName, hcs, alistGet_del, hb]
    · simp only [Logout, logoutOfAccount, SetAccountName]
      have hne2 : ((alistGet st.tags c).getD "") ≠ "" := hne
      have hcs2 : (alistGet st.accountToClients ((alistGet st.tags c).getD "")).getD [] =
        [some c] := hcs
      simp [clientAccount, hne2, hcs2, alistGet_set]
  · have hsum := length_filter_ne_add_count
      ((alistGet st.accountToClients (clientAccount st c)).getD []) (some c)
    have hflen : (((alistGet st.accountToClients (clientAccount st c)).getD []).filter
        (fun x => x != some c)).length =
        ((alistGet st.accountToClients (clientAccount st c)).getD []).length - 1 := by
      omega
    refine ⟨?_, ?_, ?_⟩
    · simp [Logout, hne, logoutOfAccount, SetAccountName, hlen, logoutRemaining, hflen,
        alistGet_set]
    · intro b hb
      simp [Logout, hne, logoutOfAccount, SetAccountName, hlen, logoutRemaining, hflen,
        alistGet_set, hb]
    · simp only [Logout, logoutOfAccount, SetAccountName]
      have hne2 : ((alistGet st.tags c).getD "") ≠ "" := hne
      have hlen2 : ¬ ((alistGet st.accountToClients
        ((alistGet st.tags c).getD "")).getD []).length ≤ 1 := hlen
      have hflen2 : ((List.filter (fun x => x != some c)
          ((alistGet st.accountToClients ((alistGet st.tags c).getD "")).getD []))).length =
          ((alistGet st.accountToClients ((alistGet st.tags c).getD "")).getD []).length - 1 :=
        hflen
      simp [clientAccount, hne2, hlen2, logoutRemaining, hflen2, alistGet_set]

/-- C8 witness: account a with sessions 1 and 2; session 1 logs out, session
2 stays. -/
theorem logout_removes_single_witness :
    (Logout w8St 1).map (fun st2 => alistGet st2.accountToClients "a") = some (some [some 2]) ∧
    (Logout w8St 1).map (fun st2 => clientAccount st2 1) = some "" := by
  constructor
  · have h := (logout_removes_single w8St 1 "a" (by decide) (by decide) (by decide)).1
    simpa using h
  · exact (logout_removes_single w8St 1 "a" (by decide) (by decide) (by decide)).2.2

theorem alistGet_foldl_set (nicks : List String) (m : List (String × String)) (cf x : String) :
    alistGet (nicks.foldl (fun m2 nick => alistSet m2 nick cf) m) x =
    if x ∈ nicks then some cf else alistGet m x := by
  induction nicks generalizing m with
  | nil => simp
  | cons n t ih =>
    rw [List.foldl_cons, ih]
    by_cases hx : x ∈ t
    · simp [hx]
    · by_cases hn : x = n
      · subst hn
        simp [hx, alistGet_set]
      · simp [hx, hn, alistGet_set]

theorem alistGet_indexAccountStep (s : Store) (m : List (String × String)) (cf x : String) :
    alistGet (indexAccountStep s m cf) x =
    if contributes s cf x then some cf else alistGet m x := by
  rcases hn : storeGet s (.accountAdditionalNicks cf) with _ | e
  · rcases hv : storeGet s (.accountVerified cf) with _ | ev
    · simp [indexAccountStep, contributes, storedNicks, hn, hv]
    · by_cases hx : x = cf
      · subst hx
        simp [indexAccountStep, contributes, storedNicks, hn, hv, alistGet_set]
      · simp [indexAccountStep, contributes, storedNicks, hn, hv, hx, alistGet_set]
  · rcases hv : storeGet s (.accountVerified cf) with _ | ev
    · by_cases hx : x ∈ unmarshalReservedNicks e.val.toStr <;>
        simp [indexAccountStep, contributes, storedNicks, hn, hv, hx, alistGet_foldl_set]
    · by_cases hx : x ∈ unmarshalReservedNicks e.val.toStr
      · simp [indexAccountStep, contributes, storedNicks, hn, hv, hx, alistGet_foldl_set]
      · by_cases hc : x = cf
        · subst hc
          simp [indexAccountStep, contributes, storedNicks, hn, hv, hx, alistGet_foldl_set,
            alistGet_set]
        · simp [indexAccountStep, contributes, storedNicks, hn, hv, hx, hc, alistGet_foldl_set,
            alistGet_set]

theorem alistGet_build_preserve (names : List String) (s : Store)
    (m : List (String × String)) (x c : String) (hm : alistGet m x = some c)
    (hOnly : ∀ n ∈ names, n ≠ c → ¬ contributes s n x) :
    alistGet (names.foldl (indexAccountStep s) m) x = some c := by
  induction names generalizing m with
  | nil => exact hm
  | cons n t ih =>
    rw [List.foldl_cons]
    apply ih
    · rw [alistGet_indexAccountStep]
      by_cases hcase : contributes s n x
      · have hnc : n = c := by
          by_contra hne
          exact hOnly n (List.mem_cons_self _ _) hne hcase
        subst hnc
        simp [hcase]
      · simp [hcase, hm]
    · intro n2 hn2 hne2
      exact hOnly n2 (List.mem_cons_of_mem _ hn2) hne2

theorem alistGet_build_none (names : List String) (s : Store)
    (m : List (String × String)) (x : String) (hm : alistGet m x = none)
    (hNone : ∀ n ∈ names, ¬ contributes s n x) :
    alistGet (names.foldl (indexAccountStep s) m) x = none := by
  induction names generalizing m with
  | nil => exact hm
  | cons n t ih =>
    rw [List.foldl_cons]
    apply ih
    · rw [alistGet_indexAccountStep]
      simp [hNone n (List.mem_cons_self _ _), hm]
    · intro n2 hn2
      exact hNone n2 (List.mem_cons_of_mem _ hn2)

theorem alistGet_build_contrib (names : List String) (s : Store)
    (m : List (String × String)) (x c : String) (hc : contributes s c x)
    (hmem : c ∈ names)
    (hOnly : ∀ n ∈ names, n ≠ c → ¬ contributes s n x) :
    alistGet (names.foldl (indexAccountStep s) m) x = some c := by
  induction names generalizing m with
  | nil => simp at hmem
  | cons n t ih =>
    rw [List.foldl_cons]
    by_cases hn : n = c
    · subst hn
      apply alistGet_build_preserve t s _ x n
      · rw [alistGet_indexAccountStep]
        simp [hc]
      · intro n2 hn2 hne2
        exact hOnly n2 (List.mem_cons_of_mem _ hn2) hne2
    · have hmem2 : c ∈ t := by
        rcases List.mem_cons.mp hmem with h | h
        · exact absurd h.symm hn
        · exact h
      exact ih _ hmem2 (fun n2 hn2 hne2 => hOnly n2 (List.mem_cons_of_mem _ hn2) hne2)

/-- C4 (amended): after the startup rebuild with nick reservation enabled,
a verified account with an existence sentinel maps its folded name to
itself (when no other account contributes that nick), and the
additionalnicks entries of every existing account — verified or not — map
to that account (when uncontested); an unverified account installs no
self-entry, so its folded name is absent when nothing else contributes it.
The original claim's assertion that an account without account.verified
contributes no entries at all is refuted by the counterexample: its
additionalnicks entries are inserted regardless of verification. -/
theorem build_index_amended (s : Store) (cf x : String) (hEx : cf ∈ existsNames s) :
    ((storeGet s (.accountVerified cf)).isSome = true →
      (∀ n ∈ existsNames s, n ≠ cf → ¬ contributes s n cf) →
      alistGet (buildNickToAccountIndex true s []) cf = some cf) ∧
    (x ∈ storedNicks s cf →
      (∀ n ∈ existsNames s, n ≠ cf → ¬ contributes s n x) →
      alistGet (buildNickToAccountIndex true s []) x = some cf) ∧
    ((storeGet s (.accountVerified cf)).isSome = false →
      (∀ n ∈ existsNames s, ¬ contributes s n cf) →
      alistGet (buildNickToAccountIndex true s []) cf = none) := by
  refine ⟨?_, ?_, ?_⟩
  · intro hv hOnly
    show alistGet ((existsNames s).foldl (indexAccountStep s) []) cf = some cf
    exact alistGet_build_contrib (existsNames s) s [] cf cf (Or.inr ⟨rfl, hv⟩) hEx hOnly
  · intro hx hOnly
    show alistGet ((existsNames s).foldl (indexAccountStep s) []) x = some cf
    exact alistGet_build_contrib (existsNames s) s [] x cf (Or.inl hx) hEx hOnly
  · intro hv hNone
    show alistGet ((existsNames s).foldl (indexAccountStep s) []) cf = none
    exact alistGet_build_none (existsNames s) s [] cf (by simp [alistGet]) hNone

/-- C4 witness: the rebuild over w4Store maps the verified ann and her
nicks to ann, maps the unverified bob's additional nick to bob, and
installs no self-entry for bob. -/
theorem build_index_amended_witness :
    alistGet (buildNickToAccountIndex true w4Store []) "ann" = some "ann" ∧
    alistGet (buildNickToAccountIndex true w4Store []) "an1" = some "ann" ∧
    alistGet (buildNickToAccountIndex true w4Store []) "b1" = some "bob" ∧
    alistGet (buildNickToAccountIndex true w4Store []) "bob" = none :=
  ⟨(build_index_amended w4Store "ann" "" (by decide)).1 (by decide) (by decide),
   (build_index_amended w4Store "ann" "an1" (by decide)).2.1 (by decide) (by decide),
   (build_index_amended w4Store "bob" "b1" (by decide)).2.1 (by decide) (by decide),
   (build_index_amended w4Store "bob" "" (by decide)).2.2 (by decide) (by decide)⟩

end Oragono
